import Mathlib

/-!
Verification development for the `cogroup` Go package (devfans/cogroup).

The package implements a bounded, cancellable task-execution group: a
fixed pool of worker goroutines drains a capacity-limited channel of
task closures, isolating per-task panics, observing an upstream
cancellation context, and supporting a close-and-drain `Wait` protocol.

The embedding below follows `src/cogroup.go` (the current variant, the
one all claims cite):

* `Context`, `GetWorkerID` model the `context.Context` value chain and
  the accessor `GetWorkerID` (line 194).
* `CoGroup`, `New`, `Start`, `StartWithWorker` model the group record
  and its constructors (lines 37-86).  Spawning `n` goroutines is
  modelled by the list of spawned worker ordinals (`start`, line 126).
* `run`, `suppliedCtx` model the default executor with its deferred
  recover (lines 155-168); a task body is abstracted by whether it
  panics and with which value.
* `GState` and the relation `Step` give a small-step interleaving
  semantics of the concurrent system: the channel buffer is the FIFO
  list `queue`, `closed` is the channel closed flag, `cancelled` the
  upstream context state, and each worker runs the two-phase loop of
  `process` (line 134): a non-blocking cancellation pre-check (outer
  select with default), then the inner select racing a receive against
  cancellation.  Successful admissions append to `queue`; the admission
  step deliberately omits the capacity bound, over-approximating the
  channel (capacity only restricts which admissions succeed, so every
  real trace is a trace of the model and safety theorems carry over).
* `sendReady`, `tryInsertBody`, `TryInsert`, `insertBody`, `Insert`,
  `Add` model the three admission operations as select resolutions at a
  given state (lines 89-123).  Go resolves a select among several ready
  cases by a uniform pseudo-random pick; the boolean `preferSend`
  makes that choice explicit.  A send on a closed channel is a ready
  case that panics when selected; `Except.error` models the panic.
* `closeCh`, `Size`, `WaitReturn`, `resetFinish` model `Wait` and
  `Reset` (lines 171-186): `Wait` first runs `close(g.ch)` (which
  panics when the channel is already closed), then blocks until every
  worker has exited and returns the queue length.
-/

namespace Cogroup

/-! ## Context values and the worker-identity accessor -/

/-- Values stored in a context chain; the worker id is stored as an
`int`, other entries model unrelated or wrongly typed values. -/
inductive CtxVal where
  | intVal (n : Int)
  | strVal (s : String)
deriving DecidableEq

/-- Context keys: the private `workerKey{}` of the package, or any
other key used by unrelated code. -/
inductive CtxKey where
  | workerKey
  | otherKey (n : Nat)
deriving DecidableEq

/-- A `context.Context` chain: `context.Background()`, a
cancellation-bearing derivation, or a `context.WithValue` node. -/
inductive Context where
  | background
  | withCancel (parent : Context)
  | withValue (parent : Context) (key : CtxKey) (val : CtxVal)
deriving DecidableEq

/-- Lookup of `ctx.Value(key)`: walk the chain towards the root,
returning the first matching entry, `none` when absent (Go: `nil`). -/
def Context.value : Context → CtxKey → Option CtxVal
  | .background, _ => none
  | .withCancel p, k => p.value k
  | .withValue p k' v, k => if k' = k then some v else p.value k

/-- GetWorkerID (cogroup.go line 194): `n, _ := ctx.Value(workerKey{}).(int)`.
A failed type assertion with two results yields the zero value 0, both
when the entry is absent and when it has another type. -/
def GetWorkerID (ctx : Context) : Int :=
  match ctx.value .workerKey with
  | some (.intVal n) => n
  | _ => 0

/-! ## The group record and its constructors -/

/-- The installed worker procedure: `nilW` before any start call,
`defaultRun` for the builtin `g.run`, `custom k` for a user function
(abstracted by an index). -/
inductive WorkerProc where
  | nilW
  | defaultRun
  | custom (k : Nat)
deriving DecidableEq

/-- CoGroup (cogroup.go line 37): the fields relevant to the model.
`chCap` is `cap(g.ch)`, `n` the worker count. -/
structure CoGroup where
  worker : WorkerProc
  ctx : Context
  chCap : Nat
  n : Nat
  sink : Bool
deriving DecidableEq

/-- Panic value raised by `New` on a bad worker count. -/
def newPanicMsg : String := "At least one goroutine should spawned in cogroup!"

/-- New (cogroup.go line 50): panics when `n < 1`, otherwise returns
the group with a fresh channel of capacity `m`. -/
def New (ctx : Context) (n m : Nat) (sink : Bool) : Except String CoGroup :=
  if n < 1 then .error newPanicMsg
  else .ok { worker := .nilW, ctx := ctx, chCap := m, n := n, sink := sink }

/-- The ordinals of the goroutines spawned by `g.start(n)`
(cogroup.go line 126): `go g.process(i)` for `i = 0 .. n-1`. -/
def CoGroup.startOrdinals (g : CoGroup) : List Nat := List.range g.n

/-- Start (cogroup.go line 69): `New`, then `g.worker = g.run`, then
`g.start(g.n)`.  The result pairs the group with the spawned ordinals. -/
def Start (ctx : Context) (n m : Nat) (sink : Bool) :
    Except String (CoGroup × List Nat) :=
  match New ctx n m sink with
  | .error e => .error e
  | .ok g =>
      let g' := { g with worker := WorkerProc.defaultRun }
      .ok (g', g'.startOrdinals)

/-- StartWithWorker (cogroup.go line 79): a `nil` worker argument
installs the builtin `g.run`, otherwise the given one; then
`g.start(g.n)`. -/
def StartWithWorker (g : CoGroup) (worker : Option WorkerProc) :
    CoGroup × List Nat :=
  let g' :=
    match worker with
    | none => { g with worker := WorkerProc.defaultRun }
    | some w => { g with worker := w }
  (g', g'.startOrdinals)

/-! ## The default executor `run` -/

/-- A task body, abstracted by its observable behaviour at the
execution boundary: whether it panics, and with which value. -/
structure TaskSpec where
  panics : Bool
  msg : String
deriving DecidableEq

/-- Outcome of invoking a task body: `ok` on normal return (the
returned `error` is ignored by the framework), or the propagating
panic value. -/
def taskOutcome (t : TaskSpec) : Except String Unit :=
  if t.panics then .error t.msg else .ok ()

/-- The context handed to a task by `run` (cogroup.go lines 162-166):
the group context augmented with the worker ordinal when `sink`,
otherwise a fresh `context.Background()` chain with the ordinal. -/
def suppliedCtx (g : CoGroup) (i : Int) : Context :=
  if g.sink then .withValue g.ctx .workerKey (.intVal i)
  else .withValue .background .workerKey (.intVal i)

/-- Stand-in for the `debug.Stack()` bytes in the log line. -/
def debugStack : String := "goroutine stack trace"

/-- Result of one `run` call: the lines written to stderr, and whether
a fault escaped the recover boundary (terminating the goroutine). -/
structure RunResult where
  stderr : List String
  workerTerminated : Bool
deriving DecidableEq

/-- run (cogroup.go line 155): invoke the task body with `suppliedCtx`;
the deferred recover catches any panic and writes
`"CoGroup panic captured: %v - %s"` with the value and stack to stderr;
the goroutine survives either way.  A task body is any function of the
received context that either returns (the returned `error` is ignored)
or panics with a value. -/
def run (g : CoGroup) (i : Int) (body : Context → Except String Unit) :
    RunResult :=
  match body (suppliedCtx g i) with
  | .ok _ => { stderr := [], workerTerminated := false }
  | .error m =>
      { stderr := ["CoGroup panic captured: " ++ m ++ " - " ++ debugStack]
        workerTerminated := false }

/-- Execution of a task abstracted by a `TaskSpec` (behaviour
independent of the received context). -/
def runSpec (g : CoGroup) (i : Int) (t : TaskSpec) : RunResult :=
  run g i fun _ => taskOutcome t

/-- The drain loop of one worker restricted to a fixed task list, with
panic propagation made explicit: if a fault escaped `run` the goroutine
would die (second component true) and the remaining tasks would never
execute.  Returns the accumulated stderr lines and the crash flag. -/
def processSeq (g : CoGroup) (i : Int) (beh : Nat → TaskSpec) :
    List Nat → List String → List String × Bool
  | [], log => (log, false)
  | t :: rest, log =>
      let r := runSpec g i (beh t)
      if r.workerTerminated then (log ++ r.stderr, true)
      else processSeq g i beh rest (log ++ r.stderr)

/-! ## Small-step semantics of the running group -/

/-- Status of one worker goroutine in the loop of `process`
(cogroup.go line 134): `running` is the top of the loop (about to run
the outer select), `polled` is between the outer default branch and the
inner select, `done` means the goroutine has returned. -/
inductive WStatus where
  | running
  | polled
  | done
deriving DecidableEq

/-- Global state of the concurrent system: the channel buffer (FIFO),
its capacity, the channel closed flag, the upstream cancellation state,
the worker statuses indexed by ordinal, the ids admitted so far in
admission order, and the execution log of (task id, worker ordinal)
pairs in execution order. -/
structure GState where
  queue : List Nat
  cap : Nat
  closed : Bool
  cancelled : Bool
  workers : List WStatus
  admitted : List Nat
  execLog : List (Nat × Nat)
deriving DecidableEq

/-- Interleaving semantics.  `admit` is any successful admission (the
send case of `TryInsert`/`Insert`/`Add` resolving on an open channel);
it omits the capacity bound, over-approximating the channel.
`closeQueue` is the `close(g.ch)` in `Wait`.  `cancelFire` is the
upstream context firing.  The worker steps follow `process`
(cogroup.go line 134): the outer select with default either sees the
context done and returns (`precheckCancel`) or falls through
(`precheckPass`); the inner select either receives a task and runs the
worker procedure (`execTask`), sees the context done and returns
(`innerCancel`), or receives the zero value from a closed drained
channel and returns (`innerClosed`). -/
inductive Step : GState → GState → Prop
  | admitTask (s : GState) (t : Nat) :
      s.closed = false →
      Step s { s with queue := s.queue ++ [t], admitted := s.admitted ++ [t] }
  | closeQueue (s : GState) :
      s.closed = false →
      Step s { s with closed := true }
  | cancelFire (s : GState) :
      s.cancelled = false →
      Step s { s with cancelled := true }
  | precheckPass (s : GState) (i : Nat) :
      s.workers[i]? = some .running →
      s.cancelled = false →
      Step s { s with workers := s.workers.set i .polled }
  | precheckCancel (s : GState) (i : Nat) :
      s.workers[i]? = some .running →
      s.cancelled = true →
      Step s { s with workers := s.workers.set i .done }
  | execTask (s : GState) (i : Nat) (t : Nat) (rest : List Nat) :
      s.workers[i]? = some .polled →
      s.queue = t :: rest →
      Step s { s with queue := rest,
                      execLog := s.execLog ++ [(t, i)],
                      workers := s.workers.set i .running }
  | innerCancel (s : GState) (i : Nat) :
      s.workers[i]? = some .polled →
      s.cancelled = true →
      Step s { s with workers := s.workers.set i .done }
  | innerClosed (s : GState) (i : Nat) :
      s.workers[i]? = some .polled →
      s.queue = [] →
      s.closed = true →
      Step s { s with workers := s.workers.set i .done }

/-- Initial state right after `Start`: empty open channel of capacity
`cap`, upstream context alive, `n` workers at the top of the loop. -/
def initState (n cap : Nat) : GState :=
  { queue := [], cap := cap, closed := false, cancelled := false,
    workers := List.replicate n .running, admitted := [], execLog := [] }

/-- Every worker goroutine has returned (so `g.wg.Wait()` in `Wait`
has unblocked). -/
def allDone (s : GState) : Prop := ∀ w ∈ s.workers, w = WStatus.done

instance (s : GState) : Decidable (allDone s) := by
  unfold allDone; infer_instance

/-- Size (cogroup.go line 171): `len(g.ch)`. -/
def Size (s : GState) : Nat := s.queue.length

/-- The value `Wait` (cogroup.go line 176) returns once `g.wg.Wait()`
has unblocked: `len(g.ch)`. -/
def WaitReturn (s : GState) : Nat := Size s

/-! ## Admission operations as select resolutions -/

/-- The send case of a select on `g.ch <- f` is ready when the buffer
has room, or when the channel is closed (in Go a send on a closed
channel is a ready case that panics when selected). -/
def sendReady (s : GState) : Bool := s.closed || decide (s.queue.length < s.cap)

/-- The `<-g.ctx.Done()` case is ready when the upstream context has
been cancelled. -/
def doneReady (s : GState) : Bool := s.cancelled

/-- Effect of a successful send: the task is appended to the buffer
and recorded as admitted. -/
def enqueue (s : GState) (t : Nat) : GState :=
  { s with queue := s.queue ++ [t], admitted := s.admitted ++ [t] }

/-- Panic value of a send on a closed channel. -/
def sendClosedMsg : String := "send on closed channel"

/-- Executing the selected send case: placing the task on an open
channel, or the runtime panic on a closed one. -/
def sendCase (s : GState) (t : Nat) : Except String (Bool × GState) :=
  if s.closed then .error sendClosedMsg else .ok (true, enqueue s t)

/-- The select body of `TryInsert` (cogroup.go line 93): three cases
(send, context done, default), evaluated at state `s`, before the
deferred recover.  When both the send and the done case are ready, Go
picks pseudo-randomly; `preferSend` records that pick.  The default
case leaves the named result at its zero value `false`. -/
def tryInsertBody (s : GState) (t : Nat) (preferSend : Bool) :
    Except String (Bool × GState) :=
  if sendReady s && doneReady s then
    if preferSend then sendCase s t else .ok (false, s)
  else if sendReady s then sendCase s t
  else if doneReady s then .ok (false, s)
  else .ok (false, s)

/-- TryInsert (cogroup.go line 89): the select body wrapped by the
deferred bare `recover()`, which swallows any panic and returns the
named result still at its zero value `false`, leaving the state
unchanged. -/
def TryInsert (s : GState) (t : Nat) (preferSend : Bool) : Bool × GState :=
  match tryInsertBody s t preferSend with
  | .ok r => r
  | .error _ => (false, s)

/-- Resolution of a two-case blocking select (send, context done) at
one state: either a resolved return value (possibly a panic, still
unrecovered), or no ready case, in which case the caller suspends. -/
inductive InsertStep where
  | ret (r : Except String (Bool × GState))
  | blocked

/-- The select body of `Insert` (cogroup.go line 117): no default
case, so the caller blocks when neither case is ready. -/
def insertBody (s : GState) (t : Nat) (preferSend : Bool) : InsertStep :=
  if sendReady s && doneReady s then
    .ret (if preferSend then sendCase s t else .ok (false, s))
  else if sendReady s then .ret (sendCase s t)
  else if doneReady s then .ret (.ok (false, s))
  else .blocked

/-- Insert (cogroup.go line 113): the blocking select wrapped by the
deferred bare `recover()`.  `none` means the call has not resolved at
this state (the caller is suspended); `some (b, s')` is the returned
value and resulting state once it resolves. -/
def Insert (s : GState) (t : Nat) (preferSend : Bool) :
    Option (Bool × GState) :=
  match insertBody s t preferSend with
  | .blocked => none
  | .ret (.ok r) => some r
  | .ret (.error _) => some (false, s)

/-- Caller-visible outcome of `Add`: the non-blocking send placed the
task, or the default branch spawned a detached `go g.Insert(f)`, or an
unrecovered runtime fault reached the caller. -/
inductive AddOutcome where
  | placed (next : GState)
  | spawnedInsert
  | faulted (msg : String)
deriving DecidableEq

/-- Add (cogroup.go line 103): a select on send with a default branch
and no deferred recover.  When the send case is ready it is executed
(panicking in the caller if the channel is closed); otherwise the
default branch spawns a detached blocking `Insert`. -/
def Add (s : GState) (t : Nat) : AddOutcome :=
  if sendReady s then
    match sendCase s t with
    | .ok (_, s') => .placed s'
    | .error m => .faulted m
  else .spawnedInsert

/-! ## Wait and Reset -/

/-- Panic value of `close` on an already-closed channel. -/
def closeClosedMsg : String := "close of closed channel"

/-- The `close(g.ch)` performed first by `Wait` (cogroup.go line 177):
closing an already-closed channel is a runtime panic, and `Wait` has
no deferred recover. -/
def closeCh (s : GState) : Except String GState :=
  if s.closed then .error closeClosedMsg else .ok { s with closed := true }

/-- The final step of `Reset` (cogroup.go line 185), taken after the
inner `Wait` has returned: `g.ch = make(chan ..., cap(g.ch))` replaces
the queue by a fresh open one of the same capacity.  Nothing else
changes: in particular no worker goroutine is spawned. -/
def resetFinish (s : GState) : GState :=
  { s with queue := [], closed := false }

/-! ## Shared helper lemmas -/

theorem mem_set_self {α : Type} (l : List α) (i : Nat) (v : α)
    (h : i < l.length) : v ∈ l.set i v := by
  have h2 : (l.set i v)[i]? = some v := List.getElem?_set_eq_of_lt v h
  exact List.getElem?_mem h2

theorem lt_of_workers_getElem? {s : GState} {i : Nat} {w : WStatus}
    (h : s.workers[i]? = some w) : i < s.workers.length :=
  (List.getElem?_eq_some.mp h).1

theorem not_allDone_of_set {s : GState} {i : Nat} {v : WStatus}
    (hv : v ≠ WStatus.done) (hi : i < s.workers.length) :
    ¬ allDone { s with workers := s.workers.set i v } := by
  intro hd
  exact hv (hd v (mem_set_self _ _ _ hi))

/-- A step never changes the number of workers. -/
theorem Step.workers_length {s s' : GState} (h : Step s s') :
    s'.workers.length = s.workers.length := by
  cases h <;> simp [List.length_set]

/-- Cancellation is monotone: once fired it stays fired. -/
theorem Step.cancel_mono {s s' : GState} (h : Step s s')
    (hc : s.cancelled = true) : s'.cancelled = true := by
  cases h <;> simp_all

/-- Backwards form: a step into a not-yet-cancelled state started from
a not-yet-cancelled state. -/
theorem Step.cancel_back {s s' : GState} (h : Step s s')
    (hc : s'.cancelled = false) : s.cancelled = false := by
  by_contra hb
  have := Step.cancel_mono h (by simpa using hb)
  simp_all

/-- Once every worker has exited, no step touches the workers or the
execution log: only admissions, close and cancellation remain. -/
theorem Step.frozen_of_allDone {s s' : GState} (h : Step s s')
    (hd : allDone s) : s'.workers = s.workers ∧ s'.execLog = s.execLog := by
  cases h with
  | admitTask t hcl => exact ⟨rfl, rfl⟩
  | closeQueue hcl => exact ⟨rfl, rfl⟩
  | cancelFire hc => exact ⟨rfl, rfl⟩
  | precheckPass i hw hc =>
      have := hd _ (List.getElem?_mem hw)
      simp_all
  | precheckCancel i hw hc =>
      have := hd _ (List.getElem?_mem hw)
      simp_all
  | execTask i t rest hw hq =>
      have := hd _ (List.getElem?_mem hw)
      simp_all
  | innerCancel i hw hc =>
      have := hd _ (List.getElem?_mem hw)
      simp_all
  | innerClosed i hw hq hcl =>
      have := hd _ (List.getElem?_mem hw)
      simp_all

/-- Reflexive-transitive closure of `Step.frozen_of_allDone`. -/
theorem reach_frozen_of_allDone {s s' : GState}
    (h : Relation.ReflTransGen Step s s') (hd : allDone s) :
    s'.workers = s.workers ∧ s'.execLog = s.execLog := by
  induction h with
  | refl => exact ⟨rfl, rfl⟩
  | tail hab hbc ih =>
      rename_i b c
      obtain ⟨hw, hl⟩ := ih
      have hd' : allDone b := by
        intro w hwmem
        exact hd w (hw ▸ hwmem)
      obtain ⟨hw2, hl2⟩ := Step.frozen_of_allDone hbc hd'
      exact ⟨hw2.trans hw, hl2.trans hl⟩

/-! ## Claim C6: the constructor -/

/-- C6: `New` fails fast (panics) if and only if the requested worker
count is less than 1; for every worker count at least 1 it returns a
group whose worker count and queue capacity equal the given
arguments (and whose context and sink flag are the given ones). -/
theorem New_fails_iff_bad_worker_count :
    (∀ ctx n m sink, (∃ e, New ctx n m sink = Except.error e) ↔ n < 1) ∧
    (∀ ctx n m sink, 1 ≤ n → New ctx n m sink = Except.ok
      { worker := .nilW, ctx := ctx, chCap := m, n := n, sink := sink }) ∧
    (∀ ctx n m sink g, New ctx n m sink = Except.ok g →
      g.n = n ∧ g.chCap = m ∧ g.sink = sink ∧ g.ctx = ctx) := by
  refine ⟨fun ctx n m sink => ?_, fun ctx n m sink hn => ?_,
          fun ctx n m sink g hg => ?_⟩
  · constructor
    · rintro ⟨e, he⟩
      by_contra hlt
      simp [New, hlt] at he
    · intro hlt
      exact ⟨newPanicMsg, by simp [New, hlt]⟩
  · have : ¬ n < 1 := by omega
    simp [New, this]
  · by_cases hlt : n < 1
    · simp [New, hlt] at hg
    · simp [New, hlt] at hg
      subst hg
      exact ⟨rfl, rfl, rfl, rfl⟩

/-- Witness for C6 at worker count 2, capacity 5. -/
theorem New_fails_iff_bad_worker_count_witness :
    New .background 2 5 true = Except.ok
      { worker := .nilW, ctx := .background, chCap := 5, n := 2, sink := true } ∧
    (∃ e, New .background 0 5 true = Except.error e) :=
  ⟨New_fails_iff_bad_worker_count.2.1 .background 2 5 true (by decide),
   (New_fails_iff_bad_worker_count.1 .background 0 5 true).mpr (by decide)⟩

/-! ## Claim C10: StartWithWorker with a nil worker -/

/-- C10: calling `StartWithWorker` with a nil worker procedure does
not fail: it installs the builtin default executor `g.run` and spawns
exactly the configured number of workers with ordinals `0..n-1`,
exactly as `Start` does on the same group. -/
theorem StartWithWorker_nil_uses_default :
    (∀ g, (StartWithWorker g none).1 = { g with worker := .defaultRun } ∧
          (StartWithWorker g none).1.worker = .defaultRun ∧
          (StartWithWorker g none).2 = List.range g.n ∧
          (StartWithWorker g none).2.length = g.n) ∧
    (∀ ctx n m sink g, New ctx n m sink = Except.ok g →
        Start ctx n m sink = Except.ok (StartWithWorker g none)) := by
  constructor
  · intro g
    refine ⟨rfl, rfl, by simp [StartWithWorker, CoGroup.startOrdinals], by
      simp [StartWithWorker, CoGroup.startOrdinals]⟩
  · intro ctx n m sink g hg
    simp [Start, hg, StartWithWorker]

/-- Witness for C10 on the group built by `New .background 3 4 false`. -/
theorem StartWithWorker_nil_uses_default_witness :
    New .background 3 4 false = Except.ok
      { worker := .nilW, ctx := .background, chCap := 4, n := 3, sink := false } ∧
    Start .background 3 4 false = Except.ok (StartWithWorker
      { worker := .nilW, ctx := .background, chCap := 4, n := 3, sink := false } none) :=
  ⟨rfl, StartWithWorker_nil_uses_default.2 .background 3 4 false _ rfl⟩

/-! ## Claim C9: worker identity in the supplied context -/

/-- Every worker ordinal appearing in the execution log of a reachable
state is below the worker count of the initial state. -/
theorem reach_execLog_worker_lt {n cap : Nat} {s : GState}
    (h : Relation.ReflTransGen Step (initState n cap) s) :
    ∀ p ∈ s.execLog, p.2 < n := by
  have hlen : ∀ s', Relation.ReflTransGen Step (initState n cap) s' →
      s'.workers.length = n := by
    intro s' h'
    induction h' with
    | refl => simp [initState]
    | tail hab hbc ih => rw [Step.workers_length hbc, ih]
  have hlog : ∀ p ∈ s.execLog, p.2 < s.workers.length := by
    clear hlen
    induction h with
    | refl => simp [initState]
    | tail hab hbc ih =>
        cases hbc with
        | admitTask t hcl => simpa using ih
        | closeQueue hcl => simpa using ih
        | cancelFire hc => simpa using ih
        | precheckPass i hw hc => simpa [List.length_set] using ih
        | precheckCancel i hw hc => simpa [List.length_set] using ih
        | execTask i t rest hw hq =>
            intro p hp
            simp only [List.length_set]
            rcases List.mem_append.mp hp with hold | hnew
            · exact ih p hold
            · have : p = (t, i) := by simpa using hnew
              subst this
              exact lt_of_workers_getElem? hw
        | innerCancel i hw hc => simpa [List.length_set] using ih
        | innerClosed i hw hq hcl => simpa [List.length_set] using ih
  intro p hp
  have := hlog p hp
  rwa [hlen s h] at this

/-- C9: the worker-identity accessor applied to the context supplied
to a task by the default executor returns that worker ordinal; the
ordinal of any executed task is in `[0, N)`; applied to a context
carrying no identity entry the accessor returns the default 0 rather
than failing; when `sink` is true the task receives the group
cancellation-bearing context augmented with the identity, and when
`sink` is false an independent chain rooted at `Background` with the
identity. -/
theorem GetWorkerID_returns_worker_ordinal :
    (∀ g i, GetWorkerID (suppliedCtx g i) = i) ∧
    (∀ ctx, ctx.value .workerKey = none → GetWorkerID ctx = 0) ∧
    (GetWorkerID .background = 0) ∧
    (∀ g i, g.sink = true →
        suppliedCtx g i = .withValue g.ctx .workerKey (.intVal i)) ∧
    (∀ g i, g.sink = false →
        suppliedCtx g i = .withValue .background .workerKey (.intVal i)) ∧
    (∀ n cap s, Relation.ReflTransGen Step (initState n cap) s →
        ∀ p ∈ s.execLog, (0 : Int) ≤ (p.2 : Int) ∧ (p.2 : Int) < n) := by
  refine ⟨fun g i => ?_, fun ctx hv => ?_, rfl, fun g i hs => ?_,
          fun g i hs => ?_, fun n cap s h p hp => ?_⟩
  · cases hs : g.sink <;> simp [suppliedCtx, hs, GetWorkerID, Context.value]
  · simp [GetWorkerID, hv]
  · simp [suppliedCtx, hs]
  · simp [suppliedCtx, hs]
  · have := reach_execLog_worker_lt h p hp
    constructor
    · exact Int.ofNat_nonneg p.2
    · exact_mod_cast this

/-- Witness for C9: identity 3 on a sinking group, absent identity on
an unrelated context, and a concrete one-step execution trace. -/
theorem GetWorkerID_returns_worker_ordinal_witness :
    GetWorkerID (suppliedCtx
      { worker := .defaultRun, ctx := .background, chCap := 4, n := 5, sink := true } 3) = 3 ∧
    GetWorkerID (.withValue .background (.otherKey 9) (.strVal "x")) = 0 ∧
    suppliedCtx
      { worker := .defaultRun, ctx := .background, chCap := 4, n := 5, sink := false } 2
      = .withValue .background .workerKey (.intVal 2) :=
  ⟨GetWorkerID_returns_worker_ordinal.1 _ 3,
   GetWorkerID_returns_worker_ordinal.2.1 _ (by decide),
   GetWorkerID_returns_worker_ordinal.2.2.2.2.1 _ 2 rfl⟩

/-! ## Claim C8: per-task fault isolation in the default executor -/

/-- C8: for every task body that raises a runtime fault, the default
executor catches the fault at the execution boundary, writes the fault
value together with a stack trace to stderr, and the goroutine is not
terminated; the drain loop therefore always continues past a faulting
task, so subsequently queued tasks still execute and the whole task
list is processed without a crash. -/
theorem run_isolates_task_faults :
    (∀ g i body, (run g i body).workerTerminated = false) ∧
    (∀ g i body m, body (suppliedCtx g i) = Except.error m →
        (run g i body).stderr =
          ["CoGroup panic captured: " ++ m ++ " - " ++ debugStack]) ∧
    (∀ g i body, body (suppliedCtx g i) = Except.ok () →
        (run g i body).stderr = []) ∧
    (∀ g i beh t rest log, processSeq g i beh (t :: rest) log =
        processSeq g i beh rest (log ++ (runSpec g i (beh t)).stderr)) ∧
    (∀ g i beh q log, (processSeq g i beh q log).2 = false) := by
  have hterm : ∀ g i body, (run g i body).workerTerminated = false := by
    intro g i body
    unfold run
    cases body (suppliedCtx g i) <;> rfl
  refine ⟨hterm, fun g i body m hm => ?_, fun g i body hm => ?_,
          fun g i beh t rest log => ?_, fun g i beh q log => ?_⟩
  · simp [run, hm]
  · simp [run, hm]
  · simp only [processSeq]
    rw [if_neg]
    simp [runSpec, hterm]
  · induction q generalizing log with
    | nil => rfl
    | cons t rest ih =>
        simp only [processSeq]
        rw [if_neg (by simp [runSpec, hterm])]
        exact ih _

/-- Witness for C8: a panicking body gets its fault value and the
stack logged, and a queue holding a faulting task before a normal one
is processed to the end. -/
theorem run_isolates_task_faults_witness :
    (run { worker := .defaultRun, ctx := .background, chCap := 4, n := 1, sink := false } 0
      (fun _ => Except.error "boom")).stderr =
        ["CoGroup panic captured: " ++ "boom" ++ " - " ++ debugStack] ∧
    (processSeq { worker := .defaultRun, ctx := .background, chCap := 4, n := 1, sink := false } 0
      (fun t => { panics := t == 0, msg := "boom" }) [0, 1] []).2 = false :=
  ⟨run_isolates_task_faults.2.1 _ 0 _ "boom" rfl,
   run_isolates_task_faults.2.2.2.2 _ 0 _ [0, 1] []⟩

/-! ## Concrete reachable states used by several claims -/

/-- State of a one-worker group of capacity 10 right after the
`close(g.ch)` performed by `Wait`. -/
def closedState : GState :=
  { queue := [], cap := 10, closed := true, cancelled := false,
    workers := [WStatus.running], admitted := [], execLog := [] }

theorem closedState_reachable :
    Relation.ReflTransGen Step (initState 1 10) closedState :=
  Relation.ReflTransGen.single (Step.closeQueue (initState 1 10) rfl)

/-- Same group after the worker passed its cancellation pre-check. -/
def polledClosedState : GState :=
  { queue := [], cap := 10, closed := true, cancelled := false,
    workers := [WStatus.polled], admitted := [], execLog := [] }

/-- Same group after the worker observed the closed drained queue and
exited: the first `Wait` has completed with leftover 0. -/
def drainedState : GState :=
  { queue := [], cap := 10, closed := true, cancelled := false,
    workers := [WStatus.done], admitted := [], execLog := [] }

theorem drainedState_reachable :
    Relation.ReflTransGen Step (initState 1 10) drainedState := by
  have h1 : Step (initState 1 10) closedState := Step.closeQueue _ rfl
  have h2 : Step closedState polledClosedState := Step.precheckPass _ 0 rfl rfl
  have h3 : Step polledClosedState drainedState := Step.innerClosed _ 0 rfl rfl rfl
  exact ((Relation.ReflTransGen.single h1).tail h2).tail h3

/-- State of a one-worker group of capacity 10 right after the
upstream context fired, queue empty and open. -/
def cancelledState : GState :=
  { queue := [], cap := 10, closed := false, cancelled := true,
    workers := [WStatus.running], admitted := [], execLog := [] }

theorem cancelledState_reachable :
    Relation.ReflTransGen Step (initState 1 10) cancelledState :=
  Relation.ReflTransGen.single (Step.cancelFire (initState 1 10) rfl)

/-- A send case resolves to the closed-channel panic exactly when the
channel is closed, and the panic value is fixed. -/
theorem sendCase_error {s : GState} {t : Nat} {m : String}
    (h : sendCase s t = .error m) : s.closed = true ∧ m = sendClosedMsg := by
  unfold sendCase at h
  split at h
  · refine ⟨by assumption, ?_⟩
    injection h with h2
    exact h2.symm
  · exact absurd h (by simp)

/-- A send case resolves to a successful placement exactly when the
channel is open, returning true and the enqueued state. -/
theorem sendCase_ok {s : GState} {t : Nat} {v : Bool × GState}
    (h : sendCase s t = .ok v) : s.closed = false ∧ v = (true, enqueue s t) := by
  unfold sendCase at h
  split at h
  · exact absurd h (by simp)
  · rename_i hcl
    injection h with h2
    exact ⟨by simpa using hcl, h2.symm⟩

/-! ## Claim C2: admission operations racing with Wait -/

/-- C2 counterexample: the claim that `Add` never raises an unhandled
fault in the caller fails.  After `Wait` has closed the queue (a state
reachable in one step), `Add` selects the ready send case on the
closed channel and, having no deferred recover, the
send-on-closed-channel runtime fault reaches the caller. -/
theorem Add_after_close_faults_caller :
    Relation.ReflTransGen Step (initState 1 10) closedState ∧
    closedState.closed = true ∧
    Add closedState 0 = .faulted sendClosedMsg :=
  ⟨closedState_reachable, rfl, rfl⟩

/-- C2 (amended): `Insert` and `TryInsert` never raise an unhandled
fault in the caller: their deferred recover converts the
enqueue-on-closed-queue fault into a `false` return value, and that
fault is the only one their select bodies can raise; `Add`, which has
no recover, is fault-free only while the queue is open. -/
theorem insert_tryInsert_convert_closed_fault :
    (∀ s t p m, tryInsertBody s t p = .error m → TryInsert s t p = (false, s)) ∧
    (∀ s t p m, tryInsertBody s t p = .error m →
        s.closed = true ∧ m = sendClosedMsg) ∧
    (∀ s t p m, insertBody s t p = .ret (.error m) →
        Insert s t p = some (false, s)) ∧
    (∀ s t p m, insertBody s t p = .ret (.error m) →
        s.closed = true ∧ m = sendClosedMsg) ∧
    (∀ s t, s.closed = false → ∀ m, Add s t ≠ .faulted m) := by
  refine ⟨fun s t p m h => ?_, fun s t p m h => ?_, fun s t p m h => ?_,
          fun s t p m h => ?_, fun s t hcl m hadd => ?_⟩
  · simp [TryInsert, h]
  · unfold tryInsertBody at h
    split_ifs at h with h1 h2 h3 h4
    · exact sendCase_error h
    · exact sendCase_error h
  · simp [Insert, h]
  · unfold insertBody at h
    split_ifs at h with h1 h2 h3 h4
    · injection h with h5
      exact sendCase_error h5
    · exact absurd h (by simp)
    · injection h with h5
      exact sendCase_error h5
    · exact absurd h (by simp)
  · unfold Add at hadd
    split_ifs at hadd with h1
    · have hsc : sendCase s t = .ok (true, enqueue s t) := by
        simp [sendCase, hcl]
      rw [hsc] at hadd
      exact absurd hadd (by simp)

/-- Witness for the amended C2 at concrete closed and open states. -/
theorem insert_tryInsert_convert_closed_fault_witness :
    TryInsert closedState 0 true = (false, closedState) ∧
    Insert closedState 0 true = some (false, closedState) ∧
    Add (initState 1 10) 0 ≠ .faulted sendClosedMsg :=
  ⟨insert_tryInsert_convert_closed_fault.1 closedState 0 true sendClosedMsg rfl,
   insert_tryInsert_convert_closed_fault.2.2.1 closedState 0 true sendClosedMsg rfl,
   insert_tryInsert_convert_closed_fault.2.2.2.2 (initState 1 10) 0 rfl sendClosedMsg⟩

/-! ## Claim C5: admission after cancellation -/

/-- C5 counterexample: the claim that `TryInsert` never succeeds after
cancellation fails.  With the upstream context fired (reached in one
step) and a free queue slot, both the send case and the done case of
the select are ready; Go picks pseudo-randomly, and the pick of the
send case makes `TryInsert` (and likewise `Insert`) admit the task and
return true. -/
theorem TryInsert_after_cancel_may_succeed :
    Relation.ReflTransGen Step (initState 1 10) cancelledState ∧
    cancelledState.cancelled = true ∧
    TryInsert cancelledState 7 true = (true, enqueue cancelledState 7) ∧
    Insert cancelledState 7 true = some (true, enqueue cancelledState 7) :=
  ⟨cancelledState_reachable, rfl, rfl, rfl⟩

/-- C5 (amended): after cancellation fires, `Insert` never blocks: its
select always resolves immediately; both `TryInsert` and `Insert`
return false whenever the queue is full or closed, and whenever the
select pick resolves the race towards the done case; a true return is
possible only when the queue is open with a free slot and the pick
resolved to the send case (the task is then still admitted). -/
theorem admission_after_cancel_resolves :
    (∀ s t p, s.cancelled = true → insertBody s t p ≠ .blocked) ∧
    (∀ s t p, s.cancelled = true → ∃ r, Insert s t p = some r) ∧
    (∀ s t p, s.cancelled = true → (s.closed = true ∨ s.cap ≤ s.queue.length) →
        TryInsert s t p = (false, s) ∧ Insert s t p = some (false, s)) ∧
    (∀ s t, s.cancelled = true →
        TryInsert s t false = (false, s) ∧ Insert s t false = some (false, s)) ∧
    (∀ s t p b s2, s.cancelled = true → TryInsert s t p = (b, s2) → b = true →
        s.closed = false ∧ s.queue.length < s.cap ∧ p = true ∧
        s2 = enqueue s t) := by
  have hnotblocked : ∀ s t p, s.cancelled = true → insertBody s t p ≠ .blocked := by
    intro s t p hc
    unfold insertBody
    split_ifs with h1 h2 h3 <;> simp_all [doneReady]
  refine ⟨hnotblocked, fun s t p hc => ?_, fun s t p hc hfull => ?_,
          fun s t hc => ?_, fun s t p b s2 hc htry hb => ?_⟩
  · cases h : insertBody s t p with
    | blocked => exact absurd h (hnotblocked s t p hc)
    | ret r =>
        cases r with
        | ok v => exact ⟨v, by simp [Insert, h]⟩
        | error m => exact ⟨(false, s), by simp [Insert, h]⟩
  · by_cases hcl : s.closed = true
    · cases p <;>
        simp [TryInsert, tryInsertBody, Insert, insertBody, sendReady,
              doneReady, sendCase, hcl, hc]
    · have hclf : s.closed = false := by simpa using hcl
      have hlen : s.cap ≤ s.queue.length := by
        rcases hfull with h | h
        · exact absurd h hcl
        · exact h
      have hsr : sendReady s = false := by
        simp [sendReady, hclf, Nat.not_lt.mpr hlen]
      simp [TryInsert, tryInsertBody, Insert, insertBody, hsr, doneReady, hc]
  · by_cases hs : sendReady s = true <;>
      simp [TryInsert, tryInsertBody, Insert, insertBody, doneReady, hc, hs]
  · subst hb
    unfold TryInsert at htry
    cases h : tryInsertBody s t p with
    | error m =>
        rw [h] at htry
        exact absurd htry (by simp)
    | ok v =>
        rw [h] at htry
        unfold tryInsertBody at h
        by_cases hs : sendReady s = true
        · rw [if_pos (by simp [hs, doneReady, hc])] at h
          cases p with
          | false =>
              rw [if_neg (by simp)] at h
              injection h with h2
              rw [← h2] at htry
              exact absurd htry (by simp)
          | true =>
              rw [if_pos rfl] at h
              obtain ⟨hcl, hv⟩ := sendCase_ok h
              rw [hv] at htry
              have hlen : s.queue.length < s.cap := by
                have h4 := hs
                simp [sendReady, hcl] at h4
                exact h4
              have hs2 : s2 = enqueue s t := by
                injection htry with hb2 hs2
                exact hs2.symm
              exact ⟨hcl, hlen, rfl, hs2⟩
        · rw [if_neg (by simp [hs])] at h
          rw [if_neg hs] at h
          rw [if_pos (by simp [doneReady, hc])] at h
          injection h with h2
          rw [← h2] at htry
          exact absurd htry (by simp)

/-- Witness for the amended C5 at concrete cancelled states: a full
queue, a done-preferring pick, and the successful send pick. -/
theorem admission_after_cancel_resolves_witness :
    TryInsert { cancelledState with queue := List.replicate 10 0 } 7 true =
      (false, { cancelledState with queue := List.replicate 10 0 }) ∧
    TryInsert cancelledState 7 false = (false, cancelledState) ∧
    (∃ r, Insert cancelledState 7 true = some r) ∧
    cancelledState.closed = false ∧ cancelledState.queue.length < cancelledState.cap :=
  ⟨(admission_after_cancel_resolves.2.2.1
      { cancelledState with queue := List.replicate 10 0 } 7 true rfl
      (Or.inr (by decide))).1,
   (admission_after_cancel_resolves.2.2.2.1 cancelledState 7 rfl).1,
   admission_after_cancel_resolves.2.1 cancelledState 7 true rfl,
   (admission_after_cancel_resolves.2.2.2.2 cancelledState 7 true true
      (enqueue cancelledState 7) rfl rfl rfl).1,
   (admission_after_cancel_resolves.2.2.2.2 cancelledState 7 true true
      (enqueue cancelledState 7) rfl rfl rfl).2.1⟩

/-! ## Claim C3: calling Wait a second time -/

/-- C3 counterexample: the claim that a second `Wait` on an
already-closed group is safe fails.  After a completed first `Wait`
(reachable trace; all workers exited, leftover 0), `Wait` runs
`close(g.ch)` on the already-closed channel, a runtime fault with no
recover in `Wait`: it propagates to the caller. -/
theorem Wait_twice_faults :
    Relation.ReflTransGen Step (initState 1 10) drainedState ∧
    allDone drainedState ∧ WaitReturn drainedState = 0 ∧
    closeCh drainedState = .error closeClosedMsg :=
  ⟨drainedState_reachable, by decide, rfl, rfl⟩

/-- C3 (amended): calling `Wait` a second time on a group whose queue
is already closed always raises the close-of-closed-channel fault in
the caller; it is not safe. -/
theorem Wait_on_closed_group_faults (s : GState) (h : s.closed = true) :
    closeCh s = .error closeClosedMsg := by
  simp [closeCh, h]

/-- Witness for the amended C3 at the drained state. -/
theorem Wait_on_closed_group_faults_witness :
    drainedState.closed = true ∧
    closeCh drainedState = .error closeClosedMsg :=
  ⟨rfl, Wait_on_closed_group_faults drainedState rfl⟩

/-! ## Claim C4: Reset -/

/-- State after `Reset` completed from `drainedState`: fresh empty
open queue of the same capacity, but the worker is still gone. -/
def recycledState : GState :=
  { queue := [], cap := 10, closed := false, cancelled := false,
    workers := [WStatus.done], admitted := [], execLog := [] }

/-- State after one task (id 9) is admitted into the recycled group. -/
def readmittedState : GState :=
  { queue := [9], cap := 10, closed := false, cancelled := false,
    workers := [WStatus.done], admitted := [9], execLog := [] }

/-- C4 counterexample: the claim that after `Reset` the group is again
running and newly admitted tasks are executed fails.  `Reset` (its
inner `Wait` closing and draining along a reachable trace, then the
queue replacement) leaves every worker exited: a task admitted
afterwards is accepted into the fresh queue but no reachable
continuation ever executes it, since no step respawns a worker. -/
theorem Reset_leaves_no_workers :
    Relation.ReflTransGen Step (initState 1 10) drainedState ∧
    allDone drainedState ∧ WaitReturn drainedState = 0 ∧
    resetFinish drainedState = recycledState ∧
    recycledState.cap = 10 ∧
    Step recycledState readmittedState ∧
    readmittedState.admitted = [9] ∧
    (∀ s3, Relation.ReflTransGen Step readmittedState s3 →
        s3.execLog = [] ∧ s3.workers = [WStatus.done]) := by
  refine ⟨drainedState_reachable, by decide, rfl, rfl, rfl, ?_, rfl, ?_⟩
  · exact Step.admitTask recycledState 9 rfl
  · intro s3 h3
    have h4 := reach_frozen_of_allDone h3 (by decide)
    exact ⟨h4.2, h4.1⟩

/-- C4 (amended): `Reset` equals `Wait` (whose close step succeeds
exactly on a not-yet-closed queue) followed by installing a fresh
empty open queue of the same capacity, with worker statuses, count and
procedure untouched; fresh admissions then succeed; but workers are
not respawned: after the inner `Wait` completed every worker has
exited, and from any all-exited state no further step executes a task
or revives a worker. -/
theorem Reset_recycles_queue_only :
    (∀ s, (resetFinish s).cap = s.cap ∧ (resetFinish s).queue = [] ∧
        (resetFinish s).closed = false ∧ (resetFinish s).workers = s.workers ∧
        (resetFinish s).cancelled = s.cancelled ∧
        (resetFinish s).admitted = s.admitted ∧
        (resetFinish s).execLog = s.execLog) ∧
    (∀ s, s.closed = false → closeCh s = .ok { s with closed := true }) ∧
    (∀ s t, Step (resetFinish s)
        { resetFinish s with queue := [t],
                             admitted := (resetFinish s).admitted ++ [t] }) ∧
    (∀ s s3, allDone s → Relation.ReflTransGen Step s s3 →
        s3.execLog = s.execLog ∧ s3.workers = s.workers) := by
  refine ⟨fun s => ⟨rfl, rfl, rfl, rfl, rfl, rfl, rfl⟩, fun s h => ?_,
          fun s t => ?_, fun s s3 hd h3 => ?_⟩
  · simp [closeCh, h]
  · exact Step.admitTask (resetFinish s) t rfl
  · have h4 := reach_frozen_of_allDone h3 hd
    exact ⟨h4.2, h4.1⟩

/-- Witness for the amended C4 at the drained state. -/
theorem Reset_recycles_queue_only_witness :
    closeCh (initState 1 10) = .ok { initState 1 10 with closed := true } ∧
    (resetFinish drainedState).cap = drainedState.cap ∧
    (readmittedState.execLog = recycledState.execLog ∧
     readmittedState.workers = recycledState.workers) :=
  ⟨Reset_recycles_queue_only.2.1 (initState 1 10) rfl,
   (Reset_recycles_queue_only.1 drainedState).1,
   Reset_recycles_queue_only.2.2.2 recycledState readmittedState (by decide)
     (Relation.ReflTransGen.single (Step.admitTask recycledState 9 rfl))⟩

/-! ## Claim C1: every admitted task is executed exactly once -/

/-- History invariant: the tasks executed so far followed by the tasks
still buffered are exactly the tasks admitted so far, in order. -/
def logAdmittedInv (s : GState) : Prop :=
  s.execLog.map Prod.fst ++ s.queue = s.admitted

/-- Exit invariant: without cancellation a worker only exits on a
closed drained queue, so once all workers are gone the queue is empty
and the queue was closed. -/
def doneClosedInv (s : GState) : Prop :=
  allDone s → s.queue = [] ∧ s.closed = true

theorem Step.preserves_inv {s s' : GState} (h : Step s s')
    (hc : s.cancelled = false)
    (h1 : logAdmittedInv s) (h2 : doneClosedInv s) :
    logAdmittedInv s' ∧ doneClosedInv s' := by
  have h1e : s.execLog.map Prod.fst ++ s.queue = s.admitted := h1
  cases h with
  | admitTask t hcl =>
      constructor
      · show s.execLog.map Prod.fst ++ (s.queue ++ [t]) = s.admitted ++ [t]
        rw [← List.append_assoc, h1e]
      · intro hd
        obtain ⟨hq, hcl2⟩ := h2 hd
        exact absurd hcl2 (by simp [hcl])
  | closeQueue hcl =>
      exact ⟨h1, fun hd => ⟨(h2 hd).1, rfl⟩⟩
  | cancelFire hc2 =>
      exact ⟨h1, fun hd => h2 hd⟩
  | precheckPass i hw hc2 =>
      refine ⟨h1, fun hd => absurd hd ?_⟩
      exact not_allDone_of_set (by simp) (lt_of_workers_getElem? hw)
  | precheckCancel i hw hc2 =>
      exact absurd hc2 (by simp [hc])
  | execTask i t rest hw hq =>
      constructor
      · show (s.execLog ++ [(t, i)]).map Prod.fst ++ rest = s.admitted
        rw [List.map_append, List.append_assoc]
        show s.execLog.map Prod.fst ++ (t :: rest) = s.admitted
        rw [← hq]
        exact h1e
      · intro hd
        exact absurd hd
          (not_allDone_of_set (by simp) (lt_of_workers_getElem? hw))
  | innerCancel i hw hc2 =>
      exact absurd hc2 (by simp [hc])
  | innerClosed i hw hq hcl =>
      exact ⟨h1, fun hd => ⟨hq, hcl⟩⟩

/-- Along any trace from the initial state of a group with at least
one worker on which cancellation never fired, both invariants hold. -/
theorem reach_inv {n cap : Nat} (hn : 1 ≤ n) {s : GState}
    (h : Relation.ReflTransGen Step (initState n cap) s) :
    s.cancelled = false → logAdmittedInv s ∧ doneClosedInv s := by
  induction h with
  | refl =>
      intro _
      refine ⟨rfl, fun hd => ?_⟩
      exfalso
      have hmem : WStatus.running ∈ (initState n cap).workers := by
        simp only [initState, List.mem_replicate]
        exact ⟨by omega, trivial⟩
      exact absurd (hd _ hmem) (by simp)
  | tail hab hbc ih =>
      intro hcn
      have hcb := Step.cancel_back hbc hcn
      obtain ⟨h1, h2⟩ := ih hcb
      exact Step.preserves_inv hbc hcb h1 h2

/-- C1: for every worker count at least 1 and any capacity, along any
trace of the group in which at most capacity-many tasks were admitted,
the admitted tasks are distinct, and cancellation never fires, once
`Wait` has been invoked and every worker has exited (so `Wait`
unblocks), `Wait` returns 0 and the execution log lists exactly the
admitted tasks in admission order: every admitted task was executed
exactly once, by exactly one worker.  Moreover `Wait` does return:
after the close, as long as some worker remains, a step is always
available (no deadlock), so every maximal schedule drains and exits. -/
theorem Wait_returns_zero_and_each_task_runs_once
    (n cap : Nat) (hn : 1 ≤ n) (s : GState)
    (htr : Relation.ReflTransGen Step (initState n cap) s)
    (_hadm : s.admitted.length ≤ cap)
    (hnodup : s.admitted.Nodup)
    (hcancel : s.cancelled = false)
    (hdone : allDone s) :
    WaitReturn s = 0 ∧
    s.execLog.map Prod.fst = s.admitted ∧
    (∀ t ∈ s.admitted, (s.execLog.map Prod.fst).count t = 1) ∧
    (∀ t ∈ s.admitted, ∃ i, (t, i) ∈ s.execLog ∧
        ∀ j, (t, j) ∈ s.execLog → j = i) ∧
    (∀ s2, Relation.ReflTransGen Step (initState n cap) s2 →
        s2.cancelled = false → s2.closed = true → ¬ allDone s2 →
        ∃ s3, Step s2 s3) := by
  obtain ⟨h1, h2⟩ := reach_inv hn htr hcancel
  obtain ⟨hq, hcl⟩ := h2 hdone
  have hlog : s.execLog.map Prod.fst = s.admitted := by
    unfold logAdmittedInv at h1
    rw [hq] at h1
    simpa using h1
  refine ⟨by simp [WaitReturn, Size, hq], hlog, fun t ht => ?_, fun t ht => ?_,
          fun s2 htr2 hc2 hcl2 hnd => ?_⟩
  · rw [hlog]
    exact List.count_eq_one_of_mem hnodup ht
  · have hnd : (s.execLog.map Prod.fst).Nodup := hlog ▸ hnodup
    have htm : t ∈ s.execLog.map Prod.fst := hlog ▸ ht
    obtain ⟨p, hp, hpt⟩ := List.mem_map.mp htm
    refine ⟨p.2, ?_, fun j hj => ?_⟩
    · have hept : (t, p.2) = p := by
        rw [← hpt]
      rw [hept]
      exact hp
    · have hep : (t, j) = p :=
        List.inj_on_of_nodup_map hnd hj hp (by simp [hpt])
      have := congrArg Prod.snd hep
      simpa using this
  · unfold allDone at hnd
    push_neg at hnd
    obtain ⟨w, hwmem, hwne⟩ := hnd
    obtain ⟨i, hi⟩ := List.mem_iff_getElem?.mp hwmem
    cases w with
    | done => exact absurd rfl hwne
    | running => exact ⟨_, Step.precheckPass s2 i hi hc2⟩
    | polled =>
        cases hq2 : s2.queue with
        | nil => exact ⟨_, Step.innerClosed s2 i hi hq2 hcl2⟩
        | cons t2 rest => exact ⟨_, Step.execTask s2 i t2 rest hi hq2⟩

/-- State at the end of the concrete witness trace for C1: one worker,
capacity 2, task 5 admitted, closed, drained, executed by worker 0. -/
def cOneFinal : GState :=
  { queue := [], cap := 2, closed := true, cancelled := false,
    workers := [WStatus.done], admitted := [5], execLog := [(5, 0)] }

theorem cOneFinal_reachable :
    Relation.ReflTransGen Step (initState 1 2) cOneFinal := by
  have h1 : Step (initState 1 2)
      { queue := [5], cap := 2, closed := false, cancelled := false,
        workers := [WStatus.running], admitted := [5], execLog := [] } :=
    Step.admitTask _ 5 rfl
  have h2 : Step
      { queue := [5], cap := 2, closed := false, cancelled := false,
        workers := [WStatus.running], admitted := [5], execLog := [] }
      { queue := [5], cap := 2, closed := true, cancelled := false,
        workers := [WStatus.running], admitted := [5], execLog := [] } :=
    Step.closeQueue _ rfl
  have h3 : Step
      { queue := [5], cap := 2, closed := true, cancelled := false,
        workers := [WStatus.running], admitted := [5], execLog := [] }
      { queue := [5], cap := 2, closed := true, cancelled := false,
        workers := [WStatus.polled], admitted := [5], execLog := [] } :=
    Step.precheckPass _ 0 rfl rfl
  have h4 : Step
      { queue := [5], cap := 2, closed := true, cancelled := false,
        workers := [WStatus.polled], admitted := [5], execLog := [] }
      { queue := [], cap := 2, closed := true, cancelled := false,
        workers := [WStatus.running], admitted := [5], execLog := [(5, 0)] } :=
    Step.execTask _ 0 5 [] rfl rfl
  have h5 : Step
      { queue := [], cap := 2, closed := true, cancelled := false,
        workers := [WStatus.running], admitted := [5], execLog := [(5, 0)] }
      { queue := [], cap := 2, closed := true, cancelled := false,
        workers := [WStatus.polled], admitted := [5], execLog := [(5, 0)] } :=
    Step.precheckPass _ 0 rfl rfl
  have h6 : Step
      { queue := [], cap := 2, closed := true, cancelled := false,
        workers := [WStatus.polled], admitted := [5], execLog := [(5, 0)] }
      cOneFinal :=
    Step.innerClosed _ 0 rfl rfl rfl
  exact (((((Relation.ReflTransGen.single h1).tail h2).tail h3).tail
      h4).tail h5).tail h6

/-- Witness for C1 on the concrete one-worker trace. -/
theorem Wait_returns_zero_and_each_task_runs_once_witness :
    WaitReturn cOneFinal = 0 ∧
    cOneFinal.execLog.map Prod.fst = cOneFinal.admitted ∧
    (cOneFinal.execLog.map Prod.fst).count 5 = 1 :=
  have h := Wait_returns_zero_and_each_task_runs_once 1 2 (by decide)
    cOneFinal cOneFinal_reachable (by decide) (by decide) rfl (by decide)
  ⟨h.1, h.2.1, h.2.2.1 5 (by decide)⟩

/-! ## Claim C7: the worker loop checks cancellation first -/

/-- C7: every worker-loop iteration checks cancellation first and
without blocking: a running worker under fired cancellation always has
the immediate pre-check exit step, and any step involving it either
leaves it at the loop top or exits it with queue and execution log
untouched, never dequeuing; a worker at the inner select exits when it
observes the queue closed and drained; every execution step dequeues
the queue head from the polled stage; and the polled stage is entered
only by a pre-check that saw no cancellation, so a worker never
executes a task dequeued after its pre-check saw cancellation. -/
theorem worker_checks_cancellation_first :
    (∀ s i, s.workers[i]? = some WStatus.running → s.cancelled = true →
        Step s { s with workers := s.workers.set i .done }) ∧
    (∀ s s2 (i : Nat), Step s s2 → s.workers[i]? = some WStatus.running →
        s.cancelled = true →
        s2.workers[i]? = some WStatus.running ∨
        (s2.workers[i]? = some WStatus.done ∧ s2.queue = s.queue ∧
         s2.execLog = s.execLog)) ∧
    (∀ s i, s.workers[i]? = some WStatus.polled → s.queue = [] →
        s.closed = true →
        Step s { s with workers := s.workers.set i .done }) ∧
    (∀ s s2 (i t : Nat), Step s s2 → s2.execLog = s.execLog ++ [(t, i)] →
        s.workers[i]? = some WStatus.polled ∧ s.queue = t :: s2.queue) ∧
    (∀ s s2 (i : Nat), Step s s2 → s.workers[i]? ≠ some WStatus.polled →
        s2.workers[i]? = some WStatus.polled →
        s.workers[i]? = some WStatus.running ∧ s.cancelled = false) := by
  refine ⟨fun s i hw hc => Step.precheckCancel s i hw hc,
          fun s s2 i hstep hwi hc => ?_,
          fun s i hw hq hcl => Step.innerClosed s i hw hq hcl,
          fun s s2 i t hstep hlog => ?_,
          fun s s2 i hstep hnp hp2 => ?_⟩
  · cases hstep with
    | admitTask t hcl => exact Or.inl hwi
    | closeQueue hcl => exact Or.inl hwi
    | cancelFire hc2 => exact Or.inl hwi
    | precheckPass j hw hc2 => exact absurd hc2 (by simp [hc])
    | precheckCancel j hw hc2 =>
        by_cases hji : j = i
        · subst hji
          right
          refine ⟨?_, rfl, rfl⟩
          show (s.workers.set j WStatus.done)[j]? = some WStatus.done
          exact List.getElem?_set_eq_of_lt _ (lt_of_workers_getElem? hw)
        · left
          show (s.workers.set j WStatus.done)[i]? = some WStatus.running
          rw [List.getElem?_set_ne hji]
          exact hwi
    | execTask j t rest hw hq =>
        have hji : j ≠ i := by
          intro he
          subst he
          rw [hw] at hwi
          exact absurd hwi (by simp)
        left
        show (s.workers.set j WStatus.running)[i]? = some WStatus.running
        rw [List.getElem?_set_ne hji]
        exact hwi
    | innerCancel j hw hc2 =>
        have hji : j ≠ i := by
          intro he
          subst he
          rw [hw] at hwi
          exact absurd hwi (by simp)
        left
        show (s.workers.set j WStatus.done)[i]? = some WStatus.running
        rw [List.getElem?_set_ne hji]
        exact hwi
    | innerClosed j hw hq hcl =>
        have hji : j ≠ i := by
          intro he
          subst he
          rw [hw] at hwi
          exact absurd hwi (by simp)
        left
        show (s.workers.set j WStatus.done)[i]? = some WStatus.running
        rw [List.getElem?_set_ne hji]
        exact hwi
  · cases hstep with
    | admitTask t2 hcl => exact absurd hlog (by simp)
    | closeQueue hcl => exact absurd hlog (by simp)
    | cancelFire hc2 => exact absurd hlog (by simp)
    | precheckPass j hw hc2 => exact absurd hlog (by simp)
    | precheckCancel j hw hc2 => exact absurd hlog (by simp)
    | execTask j t2 rest hw hq =>
        have hlog2 : s.execLog ++ [(t2, j)] = s.execLog ++ [(t, i)] := hlog
        have h3 : (t2, j) = (t, i) := by
          have h4 := List.append_cancel_left hlog2
          simpa using h4
        injection h3 with h4 h5
        subst h4
        subst h5
        exact ⟨hw, by rw [hq]⟩
    | innerCancel j hw hc2 => exact absurd hlog (by simp)
    | innerClosed j hw hq hcl => exact absurd hlog (by simp)
  · cases hstep with
    | admitTask t hcl => exact absurd hp2 hnp
    | closeQueue hcl => exact absurd hp2 hnp
    | cancelFire hc2 => exact absurd hp2 hnp
    | precheckPass j hw hc2 =>
        by_cases hji : j = i
        · subst hji
          exact ⟨hw, hc2⟩
        · have hp3 : (s.workers.set j WStatus.polled)[i]? =
              some WStatus.polled := hp2
          rw [List.getElem?_set_ne hji] at hp3
          exact absurd hp3 hnp
    | precheckCancel j hw hc2 =>
        have hp3 : (s.workers.set j WStatus.done)[i]? =
            some WStatus.polled := hp2
        by_cases hji : j = i
        · subst hji
          rw [List.getElem?_set_eq_of_lt _ (lt_of_workers_getElem? hw)] at hp3
          exact absurd hp3 (by simp)
        · rw [List.getElem?_set_ne hji] at hp3
          exact absurd hp3 hnp
    | execTask j t rest hw hq =>
        have hp3 : (s.workers.set j WStatus.running)[i]? =
            some WStatus.polled := hp2
        by_cases hji : j = i
        · subst hji
          rw [List.getElem?_set_eq_of_lt _ (lt_of_workers_getElem? hw)] at hp3
          exact absurd hp3 (by simp)
        · rw [List.getElem?_set_ne hji] at hp3
          exact absurd hp3 hnp
    | innerCancel j hw hc2 =>
        have hp3 : (s.workers.set j WStatus.done)[i]? =
            some WStatus.polled := hp2
        by_cases hji : j = i
        · subst hji
          rw [List.getElem?_set_eq_of_lt _ (lt_of_workers_getElem? hw)] at hp3
          exact absurd hp3 (by simp)
        · rw [List.getElem?_set_ne hji] at hp3
          exact absurd hp3 hnp
    | innerClosed j hw hq hcl =>
        have hp3 : (s.workers.set j WStatus.done)[i]? =
            some WStatus.polled := hp2
        by_cases hji : j = i
        · subst hji
          rw [List.getElem?_set_eq_of_lt _ (lt_of_workers_getElem? hw)] at hp3
          exact absurd hp3 (by simp)
        · rw [List.getElem?_set_ne hji] at hp3
          exact absurd hp3 hnp

/-- Witness for C7 at concrete states: immediate exit of the running
worker under cancellation, exit on the closed drained queue, the
polled stage entered by a pre-check seeing no cancellation, and the
concrete execution step dequeuing the queue head from polled. -/
theorem worker_checks_cancellation_first_witness :
    Step cancelledState
      { cancelledState with workers := cancelledState.workers.set 0 .done } ∧
    Step polledClosedState
      { polledClosedState with
          workers := polledClosedState.workers.set 0 .done } ∧
    (closedState.workers[0]? = some WStatus.running ∧
     closedState.cancelled = false) ∧
    ({ queue := [5], cap := 2, closed := true, cancelled := false,
       workers := [WStatus.polled], admitted := [5],
       execLog := [] } : GState).workers[0]? = some WStatus.polled :=
  ⟨worker_checks_cancellation_first.1 cancelledState 0 rfl rfl,
   worker_checks_cancellation_first.2.2.1 polledClosedState 0 rfl rfl rfl,
   worker_checks_cancellation_first.2.2.2.2 closedState polledClosedState 0
     (Step.precheckPass closedState 0 rfl rfl) (by decide) (by decide),
   (worker_checks_cancellation_first.2.2.2.1
     { queue := [5], cap := 2, closed := true, cancelled := false,
       workers := [WStatus.polled], admitted := [5], execLog := [] }
     { queue := [], cap := 2, closed := true, cancelled := false,
       workers := [WStatus.running], admitted := [5], execLog := [(5, 0)] }
     0 5 (Step.execTask _ 0 5 [] rfl rfl) rfl).1⟩

end Cogroup
